import Mathlib

/-!
Verification of the text-to-structure parsing layer of the AI content
generation service (`main.py`).

The parsers operate on Python strings; we embed strings as `List Char`
and translate the Python string primitives used by the source
(`str.strip`, `str.split(sep, 1)`, `str.split()`, `str.startswith`,
`str.upper`, `str.isdigit`, `'\n'.join`) into executable Lean functions.
Python's `Optional[dict]` results become `Option` of explicit record
structures.
-/

/-- Python `str.isspace` characters relevant to `str.strip()` for ASCII
text: space, tab, newline, carriage return, vertical tab, form feed. -/
def isPySpace (c : Char) : Bool :=
  c == ' ' || c == '\t' || c == '\n' || c == '\r' || c == '\x0b' || c == '\x0c'

/-- Python `str.strip()`: remove whitespace from both ends. -/
def strip (l : List Char) : List Char :=
  ((l.dropWhile isPySpace).reverse.dropWhile isPySpace).reverse

/-- Python `s.split(":", 1)[1]`: everything after the first colon.
Every call site in the source is guarded by a `startswith` check whose
prefix contains a colon, so the index-1 access never fails there; on
colon-free input this total model returns `[]`. -/
def afterFirstColon (l : List Char) : List Char :=
  (l.dropWhile (fun c => c != ':')).drop 1

/-- Python `str.upper()` (ASCII). -/
def upper (l : List Char) : List Char := l.map Char.toUpper

/-- Python `line_stripped.split()[0]`: the first whitespace-delimited
token (call sites guarantee the line is non-empty after stripping). -/
def firstToken (l : List Char) : List Char :=
  (l.dropWhile isPySpace).takeWhile (fun c => !isPySpace c)

/-- Python `"\n".join(lines)`. -/
def joinLines (ls : List (List Char)) : List Char :=
  List.intercalate ['\n'] ls

/-- Result record of `parse_mcq_output` (the returned dict has a constant
`"type": "multiple_choice_question"` entry, elided as it carries no data). -/
structure MCQRecord where
  question_text : List Char
  options : List (List Char)
  correct_answer_index : Nat
deriving DecidableEq

/-- Result record of `parse_quiz_output` (constant `"type": "quiz"` elided). -/
structure QuizRecord where
  title : List Char
  questions : List MCQRecord
deriving DecidableEq

/-- Result record of `parse_paragraph` (constant `"type": "paragraph"` elided). -/
structure ParagraphRecord where
  content : List Char
deriving DecidableEq

/-- The mutable scan state of `parse_mcq_output`: `question_text`,
`correct_answer_letter`, and the `temp_options` dict.  Only the four
keys `'A'`–`'D'` are ever inserted into `temp_options`, so the dict is
embedded as four optional slots. -/
structure MCQState where
  question : Option (List Char)
  optA : Option (List Char)
  optB : Option (List Char)
  optC : Option (List Char)
  optD : Option (List Char)
  answer : Option (List Char)
deriving DecidableEq

/-- Initial scan state: all slots `None`, `temp_options` empty. -/
def initMCQState : MCQState := ⟨none, none, none, none, none, none⟩

/-- One iteration of the `for line in lines` loop of `parse_mcq_output`:
strip the line, skip it if blank, otherwise classify it by the ordered
prefix chain `Question:`, `A:`, `B:`, `C:`, `D:`, `Correct Answer:` and
store the trimmed remainder after the first colon (upper-cased for the
answer letter).  The source's `except IndexError` handler is dead code:
every matched line contains a colon, so `split(":", 1)[1]` exists. -/
def processLine (st : MCQState) (rawLine : List Char) : MCQState :=
  let line := strip rawLine
  if line.isEmpty then st
  else if List.isPrefixOf "Question:".toList line then
    { st with question := some (strip (afterFirstColon line)) }
  else if List.isPrefixOf "A:".toList line then
    { st with optA := some (strip (afterFirstColon line)) }
  else if List.isPrefixOf "B:".toList line then
    { st with optB := some (strip (afterFirstColon line)) }
  else if List.isPrefixOf "C:".toList line then
    { st with optC := some (strip (afterFirstColon line)) }
  else if List.isPrefixOf "D:".toList line then
    { st with optD := some (strip (afterFirstColon line)) }
  else if List.isPrefixOf "Correct Answer:".toList line then
    { st with answer := some (upper (strip (afterFirstColon line))) }
  else st

/-- `raw_text.strip().split('\n')`. -/
def mcqLines (raw : List Char) : List (List Char) :=
  (strip raw).splitOn '\n'

/-- The whole scan loop of `parse_mcq_output`. -/
def mcqScan (L : List (List Char)) : MCQState :=
  L.foldl processLine initMCQState

/-- Python truthiness of `question_text` (`None` and `""` are falsy). -/
def truthy : Option (List Char) → Bool
  | some l => !l.isEmpty
  | none => false

/-- `len(temp_options)`: the number of option slots that have been set
(only keys `'A'`–`'D'` are ever inserted). -/
def optionsCount (a b c d : Option (List Char)) : Nat :=
  (if a.isSome then 1 else 0) + (if b.isSome then 1 else 0) +
  (if c.isSome then 1 else 0) + (if d.isSome then 1 else 0)

/-- The list `['A', 'B', 'C', 'D']` that `correct_answer_letter` is
tested against (each element a one-character Python string), lifted to
`Option` values for the membership test `correct_answer_letter in [...]`
(`None in [...]` is false). -/
def validLetters : List (Option (List Char)) :=
  [some ['A'], some ['B'], some ['C'], some ['D']]

/-- `ord(correct_answer_letter) - ord('A')` for a one-letter string. -/
def ansIndex (l : List Char) : Nat :=
  (l.headD 'A').toNat - ('A').toNat

/-- The validation and construction tail of `parse_mcq_output`, applied
to the final scan state: require truthy question text, four collected
options and a valid answer letter; then build the options list in order
[A,B,C,D], fail if any entry is `None`, and otherwise return the record. -/
def mcqAssemble (q a b c d w : Option (List Char)) : Option MCQRecord :=
  if truthy q && (optionsCount a b c d == 4) && validLetters.contains w then
    let options := [a, b, c, d]
    if options.contains none then none
    else some { question_text := q.getD [],
                options := options.map (fun o => o.getD []),
                correct_answer_index := ansIndex (w.getD []) }
  else none

/-- `parse_mcq_output` from `main.py`: scan the stripped lines, then
validate and assemble. -/
def parse_mcq_output (raw : List Char) : Option MCQRecord :=
  let st := mcqScan (mcqLines raw)
  mcqAssemble st.question st.optA st.optB st.optC st.optD st.answer

/-- The marker test of `parse_quiz_output`, applied to a stripped line:
`line_stripped and line_stripped[0].isdigit() and '.' in line_stripped.split()[0]`. -/
def isNewBlockMarker (ls : List Char) : Bool :=
  !ls.isEmpty && (ls.headD ' ').isDigit && (firstToken ls).contains '.'

/-- The question-collecting loop of `parse_quiz_output` together with its
trailing flush, as structural recursion over the body lines.  The first
argument is the `current_question_lines` buffer.  A blank line is
skipped; a marker line flushes a non-empty buffer through
`parse_mcq_output` (aborting everything on a failed sub-parse) and is
itself discarded; any other line is appended verbatim to the buffer.
After the last line a non-empty buffer is flushed the same way.  The
source's `question_count` variable is used only in log messages and
carries no semantics, so it is elided. -/
def runBlocks : List (List Char) → List (List Char) → Option (List MCQRecord)
  | buf, [] =>
      if buf.isEmpty then some []
      else (parse_mcq_output (joinLines buf)).map (fun m => [m])
  | buf, line :: rest =>
      let ls := strip line
      if ls.isEmpty then runBlocks buf rest
      else if isNewBlockMarker ls then
        if buf.isEmpty then runBlocks [] rest
        else
          match parse_mcq_output (joinLines buf) with
          | some m => (runBlocks [] rest).map (fun qs => m :: qs)
          | none => none
      else runBlocks (buf ++ [line]) rest

/-- The stripped first line of the quiz input
(`lines[0].strip() if lines else ""`; `split('\n')` never yields an
empty list, so the `else` arm is unreachable). -/
def quizTitleLine (raw : List Char) : List Char :=
  strip (((strip raw).splitOn '\n').headD [])

/-- The body lines of the quiz input (`lines[1:]`, taken after the title
line matched). -/
def quizBody (raw : List Char) : List (List Char) :=
  ((strip raw).splitOn '\n').drop 1

/-- `expected_questions` from `parse_quiz_output`. -/
def expected_questions : Nat := 3

/-- `parse_quiz_output` from `main.py`: the stripped first line must
start with `Quiz Title:` (else fail); its trimmed remainder after the
first colon is the title (the source's `except IndexError` fail branch
is dead code, since the matched line contains a colon).  The remaining
lines are segmented into numbered blocks, each parsed with
`parse_mcq_output`; finally exactly 3 parsed questions are required. -/
def parse_quiz_output (raw : List Char) : Option QuizRecord :=
  let first_line := quizTitleLine raw
  if List.isPrefixOf "Quiz Title:".toList first_line then
    let title := strip (afterFirstColon first_line)
    match runBlocks [] (quizBody raw) with
    | some qs => if qs.length = expected_questions then some ⟨title, qs⟩ else none
    | none => none
  else none

/-- `parse_paragraph` from the router in `main.py`: strip the raw text;
a truthy (non-empty) result is the content, an empty one is a failure. -/
def parse_paragraph (raw : List Char) : Option ParagraphRecord :=
  let content := strip raw
  if !content.isEmpty then some ⟨content⟩ else none

/-- Pure segmentation of quiz body lines into blocks: the same buffering
discipline as `runBlocks`, but collecting the finalized blocks instead
of parsing them.  Used to state what `parse_quiz_output` feeds to the
MCQ parser. -/
def segmentBlocks : List (List Char) → List (List Char) → List (List (List Char))
  | buf, [] => if buf.isEmpty then [] else [buf]
  | buf, line :: rest =>
      let ls := strip line
      if ls.isEmpty then segmentBlocks buf rest
      else if isNewBlockMarker ls then
        if buf.isEmpty then segmentBlocks [] rest
        else buf :: segmentBlocks [] rest
      else segmentBlocks (buf ++ [line]) rest

/-- One MCQ block parses successfully. -/
def blockParses (b : List (List Char)) : Bool :=
  (parse_mcq_output (joinLines b)).isSome

/-- The record of a successfully parsed block (callers establish
`blockParses b`, making the default unreachable). -/
def blockRecord (b : List (List Char)) : MCQRecord :=
  (parse_mcq_output (joinLines b)).getD ⟨[], [], 0⟩

/-! ## Per-field extractors for the MCQ scan

For each slot of `MCQState`, the value (if any) that a single line
contributes, mirroring the `elif` chain of `processLine` position by
position. -/

/-- Contribution of one line to the `question` slot. -/
def qOf (rawLine : List Char) : Option (List Char) :=
  let line := strip rawLine
  if line.isEmpty then none
  else if List.isPrefixOf "Question:".toList line then
    some (strip (afterFirstColon line))
  else none

/-- Contribution of one line to the `optA` slot. -/
def aOf (rawLine : List Char) : Option (List Char) :=
  let line := strip rawLine
  if line.isEmpty then none
  else if List.isPrefixOf "Question:".toList line then none
  else if List.isPrefixOf "A:".toList line then
    some (strip (afterFirstColon line))
  else none

/-- Contribution of one line to the `optB` slot. -/
def bOf (rawLine : List Char) : Option (List Char) :=
  let line := strip rawLine
  if line.isEmpty then none
  else if List.isPrefixOf "Question:".toList line then none
  else if List.isPrefixOf "A:".toList line then none
  else if List.isPrefixOf "B:".toList line then
    some (strip (afterFirstColon line))
  else none

/-- Contribution of one line to the `optC` slot. -/
def cOf (rawLine : List Char) : Option (List Char) :=
  let line := strip rawLine
  if line.isEmpty then none
  else if List.isPrefixOf "Question:".toList line then none
  else if List.isPrefixOf "A:".toList line then none
  else if List.isPrefixOf "B:".toList line then none
  else if List.isPrefixOf "C:".toList line then
    some (strip (afterFirstColon line))
  else none

/-- Contribution of one line to the `optD` slot. -/
def dOf (rawLine : List Char) : Option (List Char) :=
  let line := strip rawLine
  if line.isEmpty then none
  else if List.isPrefixOf "Question:".toList line then none
  else if List.isPrefixOf "A:".toList line then none
  else if List.isPrefixOf "B:".toList line then none
  else if List.isPrefixOf "C:".toList line then none
  else if List.isPrefixOf "D:".toList line then
    some (strip (afterFirstColon line))
  else none

/-- Contribution of one line to the `answer` slot. -/
def ansOf (rawLine : List Char) : Option (List Char) :=
  let line := strip rawLine
  if line.isEmpty then none
  else if List.isPrefixOf "Question:".toList line then none
  else if List.isPrefixOf "A:".toList line then none
  else if List.isPrefixOf "B:".toList line then none
  else if List.isPrefixOf "C:".toList line then none
  else if List.isPrefixOf "D:".toList line then none
  else if List.isPrefixOf "Correct Answer:".toList line then
    some (upper (strip (afterFirstColon line)))
  else none

/-- The value a sequence of lines leaves in a slot: the contribution of
the last contributing line, if any. -/
def lastField (f : List Char → Option (List Char)) (L : List (List Char)) :
    Option (List Char) :=
  L.foldl (fun acc l => (f l).or acc) none

/-! ## Concrete inputs used in counterexamples and witnesses -/

/-- MCQ text whose `A:` line has no text after the colon. -/
def exC1 : List Char :=
  "Question: Q\nA:\nB: b\nC: c\nD: d\nCorrect Answer: A".toList

/-- The record `parse_mcq_output` returns on `exC1`: its option A is the
empty string. -/
def exC1rec : MCQRecord :=
  ⟨"Q".toList, [[], "b".toList, "c".toList, "d".toList], 0⟩

/-- A fully well-formed MCQ text. -/
def exStd : List Char :=
  "Question: Q\nA: a1\nB: b1\nC: c1\nD: d1\nCorrect Answer: B".toList

/-- The record parsed from `exStd`. -/
def exStdRec : MCQRecord :=
  ⟨"Q".toList, ["a1".toList, "b1".toList, "c1".toList, "d1".toList], 1⟩

/-- Quiz text whose first line is `Quiz Title:` with nothing after the
colon, followed by three well-formed numbered blocks. -/
def exC2 : List Char :=
  ("Quiz Title:\n1.\nQuestion: Q1\nA: a\nB: b\nC: c\nD: d\nCorrect Answer: A\n"
    ++ "2.\nQuestion: Q2\nA: a\nB: b\nC: c\nD: d\nCorrect Answer: B\n"
    ++ "3.\nQuestion: Q3\nA: a\nB: b\nC: c\nD: d\nCorrect Answer: C").toList

/-- The record `parse_quiz_output` returns on `exC2`: its title is the
empty string. -/
def exC2rec : QuizRecord :=
  ⟨[], [⟨"Q1".toList, ["a".toList, "b".toList, "c".toList, "d".toList], 0⟩,
        ⟨"Q2".toList, ["a".toList, "b".toList, "c".toList, "d".toList], 1⟩,
        ⟨"Q3".toList, ["a".toList, "b".toList, "c".toList, "d".toList], 2⟩]⟩

/-- Well-formed MCQ text with shuffled field order and interspersed
unrecognized lines. -/
def exC3 : List Char :=
  ("Note the following question.\nC: cc\nQuestion: What?\nA: aa\n"
    ++ "some stray line\nD: dd\nB: bb\nCorrect Answer: B\ntrailing note").toList

/-- The record parsed from `exC3`. -/
def exC3rec : MCQRecord :=
  ⟨"What?".toList, ["aa".toList, "bb".toList, "cc".toList, "dd".toList], 1⟩

/-- A fully well-formed quiz text with title `T` and three blocks. -/
def exQuizGood : List Char :=
  ("Quiz Title: T\n\n1.\nQuestion: Q1\nA: a\nB: b\nC: c\nD: d\nCorrect Answer: A\n"
    ++ "\n2.\nQuestion: Q2\nA: a\nB: b\nC: c\nD: d\nCorrect Answer: B\n"
    ++ "\n3.\nQuestion: Q3\nA: a\nB: b\nC: c\nD: d\nCorrect Answer: C").toList

/-- The record parsed from `exQuizGood`. -/
def exQuizGoodRec : QuizRecord :=
  ⟨"T".toList,
   [⟨"Q1".toList, ["a".toList, "b".toList, "c".toList, "d".toList], 0⟩,
    ⟨"Q2".toList, ["a".toList, "b".toList, "c".toList, "d".toList], 1⟩,
    ⟨"Q3".toList, ["a".toList, "b".toList, "c".toList, "d".toList], 2⟩]⟩

/-- Quiz text with only two numbered blocks. -/
def exQuizTwo : List Char :=
  ("Quiz Title: T\n\n1.\nQuestion: Q1\nA: a\nB: b\nC: c\nD: d\nCorrect Answer: A\n"
    ++ "\n2.\nQuestion: Q2\nA: a\nB: b\nC: c\nD: d\nCorrect Answer: B").toList

/-- The body lines of `exQuizGood`. -/
def exC6body : List (List Char) := quizBody exQuizGood

/-- MCQ text that is missing its `B:` option. -/
def exC5missB : List Char :=
  "Question: Q\nA: a\nC: c\nD: d\nCorrect Answer: A".toList

/-- MCQ text whose answer letter is `E`. -/
def exC5badLetter : List Char :=
  "Question: Q\nA: a\nB: b\nC: c\nD: d\nCorrect Answer: E".toList

/-- MCQ text whose answer letter is lowercase `a`. -/
def exC7lower : List Char :=
  "Question: Q\nA: a1\nB: b1\nC: c1\nD: d1\nCorrect Answer: a".toList

/-- MCQ text whose answer letter is uppercase `A`. -/
def exC7upper : List Char :=
  "Question: Q\nA: a1\nB: b1\nC: c1\nD: d1\nCorrect Answer: A".toList

/-- The record parsed from both `exC7lower` and `exC7upper`. -/
def exC7rec : MCQRecord :=
  ⟨"Q".toList, ["a1".toList, "b1".toList, "c1".toList, "d1".toList], 0⟩

/-- MCQ text whose answer letter is `E` (outside A-D). -/
def exC7E : List Char :=
  "Question: Q\nA: a1\nB: b1\nC: c1\nD: d1\nCorrect Answer: E".toList

/-- MCQ text whose answer letter is `x` (outside A-D even after
upper-casing). -/
def exC7x : List Char :=
  "Question: Q\nA: a1\nB: b1\nC: c1\nD: d1\nCorrect Answer: x".toList

/-- MCQ text with a duplicated `Question:` line and a duplicated `B:`
line. -/
def exC9 : List Char :=
  "Question: Q1\nQuestion: Q2\nA: a1\nB: x\nB: y\nC: c1\nD: d1\nCorrect Answer: A".toList

/-- The record parsed from `exC9`: the later `Question:` and `B:` lines
won. -/
def exC9rec : MCQRecord :=
  ⟨"Q2".toList, ["a1".toList, "y".toList, "c1".toList, "d1".toList], 0⟩

theorem processLine_question (st : MCQState) (l : List Char) :
    (processLine st l).question = (qOf l).or st.question := by
  simp only [processLine, qOf]
  split_ifs <;> rfl

theorem processLine_optA (st : MCQState) (l : List Char) :
    (processLine st l).optA = (aOf l).or st.optA := by
  simp only [processLine, aOf]
  split_ifs <;> rfl

theorem processLine_optB (st : MCQState) (l : List Char) :
    (processLine st l).optB = (bOf l).or st.optB := by
  simp only [processLine, bOf]
  split_ifs <;> rfl

theorem processLine_optC (st : MCQState) (l : List Char) :
    (processLine st l).optC = (cOf l).or st.optC := by
  simp only [processLine, cOf]
  split_ifs <;> rfl

theorem processLine_optD (st : MCQState) (l : List Char) :
    (processLine st l).optD = (dOf l).or st.optD := by
  simp only [processLine, dOf]
  split_ifs <;> rfl

theorem processLine_answer (st : MCQState) (l : List Char) :
    (processLine st l).answer = (ansOf l).or st.answer := by
  simp only [processLine, ansOf]
  split_ifs <;> rfl

/-- Fold transport: a slot projection commutes with the scan fold when a
single step acts on the slot by `Option.or` of an extractor. -/
theorem foldl_proj (p : MCQState → Option (List Char))
    (f : List Char → Option (List Char))
    (hstep : ∀ st l, p (processLine st l) = (f l).or (p st)) :
    ∀ (L : List (List Char)) (st : MCQState),
      p (L.foldl processLine st) = L.foldl (fun acc l => (f l).or acc) (p st) := by
  intro L
  induction L with
  | nil => intro st; rfl
  | cons l L ih =>
      intro st
      simp only [List.foldl_cons, ih, hstep]

theorem mcqScan_question (L : List (List Char)) :
    (mcqScan L).question = lastField qOf L :=
  foldl_proj (fun st => st.question) qOf processLine_question L initMCQState

theorem mcqScan_optA (L : List (List Char)) :
    (mcqScan L).optA = lastField aOf L :=
  foldl_proj (fun st => st.optA) aOf processLine_optA L initMCQState

theorem mcqScan_optB (L : List (List Char)) :
    (mcqScan L).optB = lastField bOf L :=
  foldl_proj (fun st => st.optB) bOf processLine_optB L initMCQState

theorem mcqScan_optC (L : List (List Char)) :
    (mcqScan L).optC = lastField cOf L :=
  foldl_proj (fun st => st.optC) cOf processLine_optC L initMCQState

theorem mcqScan_optD (L : List (List Char)) :
    (mcqScan L).optD = lastField dOf L :=
  foldl_proj (fun st => st.optD) dOf processLine_optD L initMCQState

theorem mcqScan_answer (L : List (List Char)) :
    (mcqScan L).answer = lastField ansOf L :=
  foldl_proj (fun st => st.answer) ansOf processLine_answer L initMCQState

/-- `parse_mcq_output` depends on the input only through the six
last-contribution values of its lines. -/
theorem parse_mcq_lastField (raw : List Char) :
    parse_mcq_output raw =
      mcqAssemble (lastField qOf (mcqLines raw)) (lastField aOf (mcqLines raw))
        (lastField bOf (mcqLines raw)) (lastField cOf (mcqLines raw))
        (lastField dOf (mcqLines raw)) (lastField ansOf (mcqLines raw)) := by
  show mcqAssemble (mcqScan (mcqLines raw)).question (mcqScan (mcqLines raw)).optA
      (mcqScan (mcqLines raw)).optB (mcqScan (mcqLines raw)).optC
      (mcqScan (mcqLines raw)).optD (mcqScan (mcqLines raw)).answer = _
  rw [mcqScan_question, mcqScan_optA, mcqScan_optB, mcqScan_optC,
    mcqScan_optD, mcqScan_answer]

/-! ## Validation-stage lemmas -/

theorem truthy_some (q : List Char) (hq : q ≠ []) : truthy (some q) = true := by
  cases q with
  | nil => exact absurd rfl hq
  | cons x xs => rfl

theorem contains_validLetters (o : Option (List Char)) :
    validLetters.contains o = true ↔ o ∈ validLetters := by
  constructor
  · intro h
    exact List.mem_of_elem_eq_true h
  · intro h
    exact List.elem_eq_true_of_mem h

/-- A fully collected state with a valid answer letter assembles into a
success record (note: option values need not be non-empty). -/
theorem mcqAssemble_success (q a b c d w : List Char) (hq : q ≠ [])
    (hw : w ∈ [['A'], ['B'], ['C'], ['D']]) :
    mcqAssemble (some q) (some a) (some b) (some c) (some d) (some w) =
      some ⟨q, [a, b, c, d], ansIndex w⟩ := by
  have hcont : validLetters.contains (some w) = true := by
    rw [contains_validLetters]
    simp only [validLetters, List.mem_cons, List.mem_singleton, Option.some_inj]
    simpa using hw
  unfold mcqAssemble
  rw [truthy_some q hq, hcont]
  rfl

/-- An answer slot outside `validLetters` (unset, or a letter other than
A–D) makes assembly fail. -/
theorem mcqAssemble_badLetter (q a b c d w : Option (List Char))
    (hw : w ∉ validLetters) :
    mcqAssemble q a b c d w = none := by
  have hcont : validLetters.contains w = false := by
    cases hc : validLetters.contains w with
    | false => rfl
    | true => exact absurd ((contains_validLetters w).mp hc) hw
  unfold mcqAssemble
  rw [hcont]
  simp

/-! ## Segmentation lemmas for the quiz splitter -/

/-- The question loop of `parse_quiz_output` is segmentation followed by
parsing every block: it succeeds exactly when every finalized block
parses as an MCQ, returning the parsed records in encounter order. -/
theorem runBlocks_eq_segments (body : List (List Char)) : ∀ buf,
    runBlocks buf body =
      if (segmentBlocks buf body).all blockParses then
        some ((segmentBlocks buf body).map blockRecord)
      else none := by
  induction body with
  | nil =>
      intro buf
      by_cases hb : buf.isEmpty
      · simp [runBlocks, segmentBlocks, hb]
      · cases hp : parse_mcq_output (joinLines buf) with
        | some m => simp [runBlocks, segmentBlocks, hb, blockParses, blockRecord, hp]
        | none => simp [runBlocks, segmentBlocks, hb, blockParses, blockRecord, hp]
  | cons l rest ih =>
      intro buf
      by_cases h0 : (strip l).isEmpty
      · simp only [runBlocks, segmentBlocks, h0, if_true]
        exact ih buf
      · by_cases hm : isNewBlockMarker (strip l)
        · by_cases hb : buf.isEmpty
          · simp only [runBlocks, segmentBlocks, h0, hm, hb, if_true, if_false,
              Bool.not_true, ite_true, ite_false]
            exact ih []
          · cases hp : parse_mcq_output (joinLines buf) with
            | none =>
                simp [runBlocks, segmentBlocks, h0, hm, hb, hp, blockParses]
            | some m =>
                by_cases ha : (segmentBlocks [] rest).all blockParses
                · simp [runBlocks, segmentBlocks, h0, hm, hb, hp, ih, ha,
                    blockParses, blockRecord]
                · simp [runBlocks, segmentBlocks, h0, hm, hb, hp, ih, ha,
                    blockParses, blockRecord]
        · simp only [runBlocks, segmentBlocks, h0, hm, if_false, ite_false,
            Bool.not_false, ite_true]
          exact ih (buf ++ [l])

/-- Every line of every finalized block is a non-blank, non-marker body
line, in order: the blocks flatten to exactly the kept body lines.
Marker lines are consumed as delimiters and blank lines are skipped. -/
theorem segmentBlocks_join (body : List (List Char)) : ∀ buf,
    (segmentBlocks buf body).flatten =
      buf ++ body.filter (fun l => !(strip l).isEmpty && !isNewBlockMarker (strip l)) := by
  induction body with
  | nil =>
      intro buf
      by_cases hb : buf.isEmpty
      · have : buf = [] := by simpa using hb
        simp [segmentBlocks, hb, this]
      · simp [segmentBlocks, hb]
  | cons l rest ih =>
      intro buf
      by_cases h0 : (strip l).isEmpty
      · simp [segmentBlocks, h0, ih]
      · by_cases hm : isNewBlockMarker (strip l)
        · by_cases hb : buf.isEmpty
          · have : buf = [] := by simpa using hb
            simp [segmentBlocks, h0, hm, hb, this, ih]
          · simp [segmentBlocks, h0, hm, hb, ih]
        · simp [segmentBlocks, h0, hm, ih]

/-- Finalized blocks are never empty (only non-empty buffers are
flushed, at a marker line or after the last line). -/
theorem segmentBlocks_nonempty (body : List (List Char)) : ∀ buf,
    ∀ b ∈ segmentBlocks buf body, b ≠ [] := by
  induction body with
  | nil =>
      intro buf b hb
      cases hbuf : buf.isEmpty with
      | true => simp [segmentBlocks, hbuf] at hb
      | false =>
          simp only [segmentBlocks, hbuf, Bool.false_eq_true, if_false,
            List.mem_singleton] at hb
          subst hb
          simpa using hbuf
  | cons l rest ih =>
      intro buf b hb
      by_cases h0 : (strip l).isEmpty
      · simp only [segmentBlocks, h0, if_true, ite_true] at hb
        exact ih buf b hb
      · by_cases hm : isNewBlockMarker (strip l)
        · cases hbuf : buf.isEmpty with
          | true =>
              simp only [segmentBlocks, h0, hm, hbuf, if_true, if_false,
                ite_true, ite_false] at hb
              exact ih [] b hb
          | false =>
              simp only [segmentBlocks, h0, hm, hbuf, Bool.false_eq_true,
                if_false, ite_true, ite_false, List.mem_cons] at hb
              rcases hb with hbeq | hb2
              · subst hbeq; simpa using hbuf
              · exact ih [] b hb2
        · simp only [segmentBlocks, h0, hm, if_false, ite_false] at hb
          exact ih (buf ++ [l]) b hb

/-- Full characterization of the quiz splitter: it succeeds exactly when
the stripped first line bears the `Quiz Title:` prefix, every segmented
block parses as an MCQ, and exactly 3 blocks were produced; the record
then holds the trimmed title remainder and the parsed blocks in order. -/
theorem parse_quiz_characterization (raw : List Char) (r : QuizRecord) :
    parse_quiz_output raw = some r ↔
      (List.isPrefixOf "Quiz Title:".toList (quizTitleLine raw) = true ∧
       (∀ b ∈ segmentBlocks [] (quizBody raw), blockParses b = true) ∧
       (segmentBlocks [] (quizBody raw)).length = expected_questions ∧
       r = ⟨strip (afterFirstColon (quizTitleLine raw)),
            (segmentBlocks [] (quizBody raw)).map blockRecord⟩) := by
  simp only [parse_quiz_output]
  rw [runBlocks_eq_segments]
  by_cases hp : List.isPrefixOf "Quiz Title:".toList (quizTitleLine raw) = true
  · rw [if_pos hp]
    by_cases ha : (segmentBlocks [] (quizBody raw)).all blockParses = true
    · rw [if_pos ha]
      show (if ((segmentBlocks [] (quizBody raw)).map blockRecord).length
              = expected_questions then
            some ⟨strip (afterFirstColon (quizTitleLine raw)),
                  (segmentBlocks [] (quizBody raw)).map blockRecord⟩
          else none) = some r ↔ _
      rw [List.length_map]
      by_cases hl : (segmentBlocks [] (quizBody raw)).length = expected_questions
      · rw [if_pos hl]
        constructor
        · intro h
          exact ⟨hp, List.all_eq_true.mp ha, hl, (Option.some_inj.mp h).symm⟩
        · rintro ⟨-, -, -, rfl⟩
          rfl
      · rw [if_neg hl]
        constructor
        · intro h
          exact Option.noConfusion h
        · rintro ⟨-, -, h3, -⟩
          exact absurd h3 hl
    · rw [if_neg ha]
      have ha2 : ¬ ∀ b ∈ segmentBlocks [] (quizBody raw), blockParses b = true := by
        rw [← List.all_eq_true]
        exact ha
      show (none : Option QuizRecord) = some r ↔ _
      constructor
      · intro h
        exact Option.noConfusion h
      · rintro ⟨-, h2, -, -⟩
        exact absurd h2 ha2
  · rw [if_neg hp]
    constructor
    · intro h
      exact Option.noConfusion h
    · rintro ⟨h1, -, -, -⟩
      exact absurd h1 hp

/-- `Option.getLast?` view of a cons cell, used to phrase last-occurrence
semantics. -/
theorem cons_getLast_or {α : Type} (v : α) (t : List α) :
    (v :: t).getLast? = t.getLast?.or (some v) := by
  cases t with
  | nil => rfl
  | cons w t2 =>
      rw [List.getLast?_cons_cons]
      cases hg : (w :: t2).getLast? with
      | none => exact absurd (List.getLast?_eq_none_iff.mp hg) (by simp)
      | some x => rfl

/-- The slot value left by a line sequence is the contribution of the
last contributing line. -/
theorem lastField_getLast (f : List Char → Option (List Char))
    (L : List (List Char)) :
    lastField f L = (L.filterMap f).getLast? := by
  suffices h : ∀ (M : List (List Char)) (acc : Option (List Char)),
      M.foldl (fun a l => (f l).or a) acc = ((M.filterMap f).getLast?).or acc by
    have h2 := h L none
    simpa [lastField] using h2
  intro M
  induction M with
  | nil => intro acc; simp
  | cons x M ih =>
      intro acc
      simp only [List.foldl_cons, List.filterMap_cons]
      cases hfx : f x with
      | none =>
          rw [ih]
          rfl
      | some v =>
          rw [ih, cons_getLast_or]
          cases hM : (M.filterMap f).getLast? with
          | none => rfl
          | some y => rfl

/-- Shape of every successful MCQ parse: non-empty question text and
exactly four options. -/
theorem mcq_success_shape (raw : List Char) (r : MCQRecord)
    (h : parse_mcq_output raw = some r) :
    r.question_text ≠ [] ∧ r.options.length = 4 := by
  rw [parse_mcq_lastField] at h
  simp only [mcqAssemble] at h
  split at h
  case isFalse => exact Option.noConfusion h
  case isTrue hg =>
    split at h
    case isTrue => exact Option.noConfusion h
    case isFalse =>
      obtain rfl := (Option.some_inj.mp h).symm
      simp only [Bool.and_eq_true] at hg
      obtain ⟨⟨h1, h2⟩, h3⟩ := hg
      constructor
      · cases hq : lastField qOf (mcqLines raw) with
        | none => rw [hq] at h1; exact Bool.noConfusion h1
        | some l =>
            rw [hq] at h1
            cases l with
            | nil => exact Bool.noConfusion h1
            | cons x xs => simp
      · rfl

/-! ## Claims -/

/-- C1 (counterexample): the claim says an option line with a recognized
prefix and no text after the colon leaves the slot unset, so that a
success record can never contain an empty-string option.  On the code,
`temp_options['A'] = line.split(":", 1)[1].strip()` stores the empty
string (no `IndexError` occurs), the structural presence check counts
it, the `None in options` check does not fire, and the parser returns a
success record whose option A is the empty string. -/
theorem C1_counterexample :
    parse_mcq_output exC1 = some exC1rec ∧ ([] : List Char) ∈ exC1rec.options := by
  exact ⟨by decide, by decide⟩

/-- C1 (amended): a recognized option prefix with no text after the
colon sets the slot to the empty string (the line is not an error and
scanning continues), and every successfully returned record has exactly
four options, which need not be non-empty strings. -/
theorem C1_empty_option_value :
    (∀ st : MCQState, processLine st ("A:".toList) = { st with optA := some [] }) ∧
    (∀ (raw : List Char) (r : MCQRecord), parse_mcq_output raw = some r →
      r.options.length = 4) := by
  constructor
  · intro st
    rfl
  · intro raw r h
    exact (mcq_success_shape raw r h).2

/-- C1 (witness for the amended claim): the amended statement evaluated
on a concrete well-formed input. -/
theorem C1_empty_option_value_witness : exStdRec.options.length = 4 :=
  C1_empty_option_value.2 exStd exStdRec (by decide)

/-- C2 (counterexample): the claim says a first line reading exactly
`Quiz Title:` (empty remainder) makes the splitter fail with a
title-extraction reason.  On the code, `split(":", 1)[1]` returns the
empty string without raising, the empty title is accepted, and the parse
of `exC2` succeeds with title equal to the empty string. -/
theorem C2_counterexample :
    parse_quiz_output exC2 = some exC2rec ∧
    List.isPrefixOf "Quiz Title:".toList (quizTitleLine exC2) = true ∧
    exC2rec.title = [] := by
  exact ⟨by decide, by decide, rfl⟩

/-- C2 (amended): the splitter fails on title extraction exactly when
the stripped first line does not start with `Quiz Title:`; when it does
start with it, the trimmed remainder after the first colon — possibly
empty — becomes the title of any successful record. -/
theorem C2_title_extraction :
    (∀ raw : List Char,
      List.isPrefixOf "Quiz Title:".toList (quizTitleLine raw) = false →
      parse_quiz_output raw = none) ∧
    (∀ (raw : List Char) (r : QuizRecord), parse_quiz_output raw = some r →
      r.title = strip (afterFirstColon (quizTitleLine raw))) := by
  constructor
  · intro raw h
    simp only [parse_quiz_output]
    rw [if_neg (by rw [h]; simp)]
  · intro raw r h
    rw [parse_quiz_characterization] at h
    obtain ⟨-, -, -, rfl⟩ := h
    rfl

/-- C2 (witness for the amended claim): a first line without the
`Quiz Title:` prefix fails. -/
theorem C2_title_extraction_witness : parse_quiz_output ("Hello".toList) = none :=
  C2_title_extraction.1 ("Hello".toList) (by decide)

/-- C3: on well-formed MCQ text — the lines contribute (as their last
contribution, which for distinct single field lines is the unique one) a
non-empty question, non-empty options A-D and a stored answer letter in
A-D, with arbitrary unrecognized lines silently ignored and the fields
in any order — `parse_mcq_output` succeeds with options ordered
[A,B,C,D] and `correct_answer_index` the alphabet position of the
answer letter, so that `options[correct_index]` is the text of the
labeled correct option. -/
theorem C3_wellformed_success (raw q a b c d w : List Char)
    (hq : lastField qOf (mcqLines raw) = some q) (hq2 : q ≠ [])
    (ha : lastField aOf (mcqLines raw) = some a) (_ha2 : a ≠ [])
    (hb : lastField bOf (mcqLines raw) = some b) (_hb2 : b ≠ [])
    (hc : lastField cOf (mcqLines raw) = some c) (_hc2 : c ≠ [])
    (hd : lastField dOf (mcqLines raw) = some d) (_hd2 : d ≠ [])
    (hw : lastField ansOf (mcqLines raw) = some w)
    (hw2 : w ∈ [['A'], ['B'], ['C'], ['D']]) :
    parse_mcq_output raw = some ⟨q, [a, b, c, d], ansIndex w⟩ ∧
    [a, b, c, d].getD (ansIndex w) [] =
      (if w = ['A'] then a else if w = ['B'] then b
       else if w = ['C'] then c else d) := by
  constructor
  · rw [parse_mcq_lastField, hq, ha, hb, hc, hd, hw]
    exact mcqAssemble_success q a b c d w hq2 hw2
  · simp only [List.mem_cons, List.not_mem_nil, or_false] at hw2
    rcases hw2 with rfl | rfl | rfl | rfl <;> rfl

/-- C3 (witness): the theorem applied to `exC3`, a well-formed MCQ text
with shuffled field order and interspersed noise lines. -/
theorem C3_wellformed_success_witness : parse_mcq_output exC3 = some exC3rec :=
  (C3_wellformed_success exC3 "What?".toList "aa".toList "bb".toList
    "cc".toList "dd".toList ['B'] (by decide) (by decide) (by decide)
    (by decide) (by decide) (by decide) (by decide) (by decide) (by decide)
    (by decide) (by decide) (by decide)).1

/-- C4: the quiz splitter succeeds exactly when the title line matches,
every segmented block parses as an MCQ, and exactly 3 blocks were
produced; the successful record holds those 3 parsed blocks in
encounter order (any other block count, e.g. 2, makes it fail — the
count-mismatch reason, stating the actual count, goes to the log, as
the return value on every failure is `none`). -/
theorem C4_quiz_success_iff (raw : List Char) (r : QuizRecord) :
    parse_quiz_output raw = some r ↔
      (List.isPrefixOf "Quiz Title:".toList (quizTitleLine raw) = true ∧
       (∀ b ∈ segmentBlocks [] (quizBody raw), blockParses b = true) ∧
       (segmentBlocks [] (quizBody raw)).length = expected_questions ∧
       r = ⟨strip (afterFirstColon (quizTitleLine raw)),
            (segmentBlocks [] (quizBody raw)).map blockRecord⟩) :=
  parse_quiz_characterization raw r

/-- C4 (witness): a three-block quiz succeeds with its 3 questions in
order; a two-block quiz fails. -/
theorem C4_quiz_success_iff_witness :
    parse_quiz_output exQuizGood = some exQuizGoodRec ∧
    parse_quiz_output exQuizTwo = none := by
  constructor
  · exact (C4_quiz_success_iff exQuizGood exQuizGoodRec).mpr
      ⟨by decide, by decide, by decide, by decide⟩
  · cases hq : parse_quiz_output exQuizTwo with
    | none => rfl
    | some r =>
        have h2 := (C4_quiz_success_iff exQuizTwo r).mp hq
        exact absurd h2.2.2.1 (by decide)

/-- C5 (counterexample): the claim says each parser returns a
discriminated failure value carrying the reason (with
`IncompleteOptionSet` naming the missing letters).  On the code every
failure is the same undiscriminated `None`: a parse missing option `B`
and a parse with invalid answer letter `E` return equal values, so the
returned value carries no reason and names no letters (the diagnostic
detail goes to the log only). -/
theorem C5_counterexample :
    parse_mcq_output exC5missB = none ∧
    parse_mcq_output exC5badLetter = none ∧
    parse_mcq_output exC5missB = parse_mcq_output exC5badLetter := by
  exact ⟨by decide, by decide, by decide⟩

/-- C5 (amended): parsers never return partial data — all failures are
the single value `none` (the taxonomy of reasons lives in the log, not
in the returned value), and a successful record is always complete:
a quiz record carries exactly 3 questions, an MCQ record a non-empty
question and exactly 4 options. -/
theorem C5_failure_values :
    (∀ (raw : List Char) (r : QuizRecord), parse_quiz_output raw = some r →
      r.questions.length = expected_questions) ∧
    (∀ (raw : List Char) (r : MCQRecord), parse_mcq_output raw = some r →
      r.question_text ≠ [] ∧ r.options.length = 4) := by
  constructor
  · intro raw r h
    rw [parse_quiz_characterization] at h
    obtain ⟨-, -, hlen, rfl⟩ := h
    simpa using hlen
  · exact mcq_success_shape

/-- C5 (witness for the amended claim): the amended statement evaluated
on a concrete successful quiz parse. -/
theorem C5_failure_values_witness : exQuizGoodRec.questions.length = expected_questions :=
  C5_failure_values.1 exQuizGood exQuizGoodRec (by decide)

/-- C6: body segmentation — marker lines (`isNewBlockMarker` of the
trimmed line: non-empty, leading digit, first whitespace token
containing a dot) are consumed as pure delimiters and blank lines are
skipped, so the finalized blocks flatten to exactly the non-blank
non-marker body lines in order; every finalized block is non-empty; and
the question loop (`runBlocks`) hands exactly those finalized blocks —
at each marker and once more after the last line — to
`parse_mcq_output`. -/
theorem C6_marker_segmentation (body : List (List Char)) :
    (segmentBlocks [] body).flatten =
      body.filter (fun l => !(strip l).isEmpty && !isNewBlockMarker (strip l)) ∧
    (∀ b ∈ segmentBlocks [] body, b ≠ []) ∧
    runBlocks [] body =
      (if (segmentBlocks [] body).all blockParses then
        some ((segmentBlocks [] body).map blockRecord)
      else none) := by
  refine ⟨?_, segmentBlocks_nonempty body [], runBlocks_eq_segments body []⟩
  have h := segmentBlocks_join body []
  simpa using h

/-- C6 (witness): the flatten-filter characterization evaluated on the
body of the concrete quiz `exQuizGood`. -/
theorem C6_marker_segmentation_witness :
    (segmentBlocks [] exC6body).flatten =
      exC6body.filter (fun l => !(strip l).isEmpty && !isNewBlockMarker (strip l)) :=
  (C6_marker_segmentation exC6body).1

/-- C7: the answer letter is upper-cased before validation, so lowercase
`a` succeeds exactly like `A` (same record, same index 0), while any
stored answer value outside A-D (such as `E`) makes the parse fail. -/
theorem C7_answer_case (raw w : List Char) :
    (lastField ansOf (mcqLines raw) = some w →
      w ∉ [['A'], ['B'], ['C'], ['D']] → parse_mcq_output raw = none) ∧
    parse_mcq_output exC7lower = parse_mcq_output exC7upper ∧
    parse_mcq_output exC7lower = some exC7rec ∧
    parse_mcq_output exC7E = none := by
  refine ⟨?_, by decide, by decide, by decide⟩
  intro hw hnot
  rw [parse_mcq_lastField, hw]
  apply mcqAssemble_badLetter
  intro hmem
  apply hnot
  simp only [validLetters, List.mem_cons, List.not_mem_nil, or_false,
    Option.some.injEq] at hmem
  rcases hmem with rfl | rfl | rfl | rfl <;> simp

/-- C7 (witness): the general part applied to a concrete input with
answer letter `x` (still outside A-D after upper-casing). -/
theorem C7_answer_case_witness : parse_mcq_output exC7x = none :=
  (C7_answer_case exC7x ['X']).1 (by decide) (by decide)

/-- C8: with only the four keys A-D insertable into `temp_options`, a
collected-options count of 4 forces every slot to be set, so the
`None in options` check can never fire: under the structural guard the
assembly always reaches the success record, making the missing-value
failure branch unreachable. -/
theorem C8_none_check_unreachable (q a b c d w : Option (List Char))
    (hcnt : optionsCount a b c d = 4) :
    ([a, b, c, d].contains none) = false ∧
    (truthy q = true → validLetters.contains w = true →
      ∃ rec, mcqAssemble q a b c d w = some rec) := by
  obtain ⟨a2, rfl⟩ : ∃ x, a = some x := by
    cases a with
    | none => cases b <;> cases c <;> cases d <;> simp [optionsCount] at hcnt
    | some x => exact ⟨x, rfl⟩
  obtain ⟨b2, rfl⟩ : ∃ x, b = some x := by
    cases b with
    | none => cases c <;> cases d <;> simp [optionsCount] at hcnt
    | some x => exact ⟨x, rfl⟩
  obtain ⟨c2, rfl⟩ : ∃ x, c = some x := by
    cases c with
    | none => cases d <;> simp [optionsCount] at hcnt
    | some x => exact ⟨x, rfl⟩
  obtain ⟨d2, rfl⟩ : ∃ x, d = some x := by
    cases d with
    | none => simp [optionsCount] at hcnt
    | some x => exact ⟨x, rfl⟩
  refine ⟨rfl, ?_⟩
  intro h1 h2
  cases q with
  | none => exact Bool.noConfusion h1
  | some l =>
      refine ⟨⟨l, [a2, b2, c2, d2], ansIndex (w.getD [])⟩, ?_⟩
      unfold mcqAssemble
      rw [h1, h2]
      rfl

/-- C8 (witness): the theorem applied to fully collected concrete
slots. -/
theorem C8_none_check_unreachable_witness :
    ([some "a1".toList, some "b1".toList, some "c1".toList, some "d1".toList].contains
      (none : Option (List Char))) = false :=
  (C8_none_check_unreachable (some "Q".toList) (some "a1".toList)
    (some "b1".toList) (some "c1".toList) (some "d1".toList) (some ['B'])
    (by decide)).1

/-- C9: when several lines match the same recognized prefix, the scan
stores the contribution of the last such line — each slot of the final
scan state is the last contribution among the lines — and concretely a
block with two `Question:` lines and two `B:` lines parses to a record
showing only the later occurrences. -/
theorem C9_last_occurrence_wins :
    (∀ L : List (List Char),
      (mcqScan L).question = (L.filterMap qOf).getLast? ∧
      (mcqScan L).optA = (L.filterMap aOf).getLast? ∧
      (mcqScan L).optB = (L.filterMap bOf).getLast? ∧
      (mcqScan L).optC = (L.filterMap cOf).getLast? ∧
      (mcqScan L).optD = (L.filterMap dOf).getLast? ∧
      (mcqScan L).answer = (L.filterMap ansOf).getLast?) ∧
    parse_mcq_output exC9 = some exC9rec := by
  constructor
  · intro L
    exact ⟨(mcqScan_question L).trans (lastField_getLast qOf L),
           (mcqScan_optA L).trans (lastField_getLast aOf L),
           (mcqScan_optB L).trans (lastField_getLast bOf L),
           (mcqScan_optC L).trans (lastField_getLast cOf L),
           (mcqScan_optD L).trans (lastField_getLast dOf L),
           (mcqScan_answer L).trans (lastField_getLast ansOf L)⟩
  · decide

/-- C10: the paragraph parser fails exactly on whitespace-only input and
otherwise returns the trimmed input as content; in particular it fails
on three spaces and maps two-side-padded `Hi` to `Hi`. -/
theorem C10_paragraph :
    parse_paragraph "   ".toList = none ∧
    parse_paragraph "  Hi  ".toList = some ⟨"Hi".toList⟩ ∧
    (∀ raw : List Char, strip raw = [] → parse_paragraph raw = none) ∧
    (∀ raw : List Char, strip raw ≠ [] → parse_paragraph raw = some ⟨strip raw⟩) := by
  refine ⟨by decide, by decide, ?_, ?_⟩
  · intro raw h
    simp [parse_paragraph, h]
  · intro raw h
    unfold parse_paragraph
    cases hs : strip raw with
    | nil => exact absurd hs h
    | cons x xs => rfl

/-- C10 (witness): the general success case applied to a concrete
input. -/
theorem C10_paragraph_witness : parse_paragraph "abc".toList = some ⟨"abc".toList⟩ :=
  C10_paragraph.2.2.2 ("abc".toList) (by decide)
